import Mathlib

/-!
Verification of the data-access layer of `python_template`
(`src/python_template/data.py` and `src/python_template/gcs.py`):
asset identities, the GCS remote loader, the local read-through cache,
and the per-asset-type cleaning pipeline.

Strings are modelled as `List Char` so that prefix and splitting
arguments can be carried out by ordinary list induction.  The cloud
bucket is modelled as the list of its object names together with the
(already line-split and JSON-parsed) records of each object; the local
cache directory is modelled as an association list from relative paths
to stored tables.  Machine floats are modelled as rationals: no claim
here depends on rounding.
-/

namespace PythonTemplate

/-- Character-list strings: the string type of the embedding. -/
abbrev Str := List Char

/-- Convert a Lean string literal to the embedding's string type. -/
def str (s : String) : Str := s.data

/-- A scalar cell of a dataframe: Python ints, floats (modelled as
rationals), strings, parsed datetimes (encoded `y*10000 + m*100 + d`)
and NaN. -/
inductive Value where
| vint (i : Int)
| vfloat (q : Rat)
| vstr (s : Str)
| vdate (d : Nat)
| vnan
deriving DecidableEq

/-- One JSON-lines record: an ordered dict from field names to values. -/
abbrev Row := List (Str × Value)

/-- A `pandas.DataFrame`: named columns, a row index, and row-major
cells.  `rows.length` is the frame's `len`. -/
structure Table where
  names : List Str
  index : List Value
  rows : List (List Value)
deriving DecidableEq

/-- `PolygonAssetType = Literal["options", "index", "equity", "forex"]`. -/
inductive PolygonAssetType where
| options
| index
| equity
| forex
deriving DecidableEq

/-- The string each `PolygonAssetType` literal stands for. -/
def assetTypeStr : PolygonAssetType → Str
| PolygonAssetType.options => str ("options")
| PolygonAssetType.index => str ("index")
| PolygonAssetType.equity => str ("equity")
| PolygonAssetType.forex => str ("forex")

/-- `POLYGON_DATA_TYPE_MAP`: options→ohlcv, index→ohlc, equity→ohlcv,
forex→ohlcv. -/
def POLYGON_DATA_TYPE_MAP : PolygonAssetType → Str
| PolygonAssetType.options => str ("ohlcv")
| PolygonAssetType.index => str ("ohlc")
| PolygonAssetType.equity => str ("ohlcv")
| PolygonAssetType.forex => str ("ohlcv")

/-- The `PolygonDataAsset` dataclass.  `data_type` is the derived field
set by `__post_init__`; values are built with `mkPolygonDataAsset`. -/
structure PolygonDataAsset where
  asset_type : PolygonAssetType
  asset_id : Str
  data_provider : Str
  interval_type : Str
  traded : Bool
  data_type : Str
deriving DecidableEq

/-- The dataclass constructor followed by `__post_init__`, which derives
`data_type` from `asset_type` via `POLYGON_DATA_TYPE_MAP`. -/
def mkPolygonDataAsset (asset_type : PolygonAssetType) (asset_id : Str)
    (data_provider : Str) (interval_type : Str) (traded : Bool) : PolygonDataAsset :=
  ⟨asset_type, asset_id, data_provider, interval_type, traded,
   POLYGON_DATA_TYPE_MAP asset_type⟩

/-- `label`: the dot-joined
`data_provider.asset_type.data_type.interval_type.asset_id`. -/
def PolygonDataAsset.label (a : PolygonDataAsset) : Str :=
  a.data_provider ++ ['.'] ++ assetTypeStr a.asset_type ++ ['.'] ++ a.data_type
    ++ ['.'] ++ a.interval_type ++ ['.'] ++ a.asset_id

/-- `__eq__`: `other.label == self.label` (both operands typed). -/
def asset_eq (self other : PolygonDataAsset) : Bool :=
  other.label == self.label

/-- A deterministic model of Python's builtin string hash: any pure
function of the character sequence serves, since the source only relies
on `hash` being a function of the string. -/
def strHash (s : Str) : Nat :=
  s.foldl (fun h c => (h * 1000003 + c.toNat) % (2 ^ 61 - 1)) 0

/-- `__hash__`: `hash(self.label)`. -/
def asset_hash (a : PolygonDataAsset) : Nat := strHash a.label

/-- Rebuild an asset with the `traded` flag replaced (all other fields,
including the derived `data_type`, unchanged). -/
def setTraded (a : PolygonDataAsset) (t : Bool) : PolygonDataAsset :=
  ⟨a.asset_type, a.asset_id, a.data_provider, a.interval_type, t, a.data_type⟩

/-- `str.replace(old, new)` for one-character `old`/`new` (used for the
label's dots → path separators). -/
def replaceChar (a b : Char) (s : Str) : Str :=
  s.map (fun c => if c = a then b else c)

/-- The cloud bucket: the names of its objects, and each object's
content abstracted as its parsed JSON-lines records (the line splitting
and `json.loads` of `load_jsonl_blob` are library calls on the raw
text; the model keys the records directly by object name). -/
structure GcsBucket where
  blob_names : List Str
  blob_records : Str → List Row

/-- `list_blobs_in_bucket(bucket_name, prefix, limit)`: the store
returns the object names starting with `prefix` (all of them when
`prefix` is `None`), up to `limit` when given. -/
def list_blobs_in_bucket (bucket : GcsBucket) (pfx : Option Str) (limit : Option Nat) : List Str :=
  let filtered := bucket.blob_names.filter (fun b => (pfx.getD []).isPrefixOf b)
  match limit with
  | none => filtered
  | some n => filtered.take n

/-- `load_jsonl_blob(bucket_name, blob_name)`: download the object and
parse each non-blank line as one JSON record. -/
def load_jsonl_blob (bucket : GcsBucket) (blob_name : Str) : List Row :=
  bucket.blob_records blob_name

/-- Python `s.split(sep)` for a one-character separator; the result is
always non-empty. -/
def splitChar (sep : Char) : Str → List Str
| [] => [[]]
| c :: cs =>
  match splitChar sep cs with
  | [] => if c = sep then [[], []] else [[c]]
  | h :: t => if c = sep then [] :: h :: t else (c :: h) :: t

/-- Fuel-driven body of `replaceAll`; the fuel is the remaining string's
length, and the pattern is non-empty. -/
def replaceAllAux (pat rep : Str) : Nat → Str → Str
| _, [] => []
| 0, s => s
| f + 1, c :: cs =>
  if pat.isPrefixOf (c :: cs) then rep ++ replaceAllAux pat rep f (List.drop pat.length (c :: cs))
  else c :: replaceAllAux pat rep f cs

/-- Python `s.replace(pat, rep)`: replace every non-overlapping
occurrence of `pat`, scanning left to right. -/
def replaceAll (pat rep s : Str) : Str :=
  if pat.isEmpty then s else replaceAllAux pat rep s.length s

/-- The numeric value of a decimal digit character, if it is one. -/
def digitVal (c : Char) : Option Nat :=
  if c.isDigit then some (c.toNat - 48) else none

/-- `strptime`'s `%Y`: exactly four digits. -/
def parseYear4 : Str → Option (Nat × Str)
| a :: b :: c :: d :: rest =>
  match digitVal a, digitVal b, digitVal c, digitVal d with
  | some x, some y, some z, some w => some (x * 1000 + y * 100 + z * 10 + w, rest)
  | _, _, _, _ => none
| _ => none

/-- `strptime`'s `%m`, as the regex alternation `1[0-2]|0[1-9]|[1-9]`:
the candidate matches in the regex engine's backtracking order. -/
def monthCands (s : Str) : List (Nat × Str) :=
  (match s with
   | '1' :: c :: rest =>
     match digitVal c with
     | some v => if v ≤ 2 then [(10 + v, rest)] else []
     | none => []
   | _ => []) ++
  (match s with
   | '0' :: c :: rest =>
     match digitVal c with
     | some v => if 1 ≤ v then [(v, rest)] else []
     | none => []
   | _ => []) ++
  (match s with
   | c :: rest =>
     match digitVal c with
     | some v => if 1 ≤ v then [(v, rest)] else []
     | none => []
   | _ => [])

/-- `strptime`'s `%d`, as the regex alternation
`3[0-1]|[1-2][0-9]|0[1-9]|[1-9]| [1-9]` (the last alternative is a
space-padded day), in backtracking order. -/
def dayCands (s : Str) : List (Nat × Str) :=
  (match s with
   | '3' :: c :: rest =>
     if c = '0' ∨ c = '1' then [(30 + (c.toNat - 48), rest)] else []
   | _ => []) ++
  (match s with
   | c1 :: c2 :: rest =>
     match digitVal c1, digitVal c2 with
     | some v1, some v2 => if 1 ≤ v1 ∧ v1 ≤ 2 then [(v1 * 10 + v2, rest)] else []
     | _, _ => []
   | _ => []) ++
  (match s with
   | '0' :: c :: rest =>
     match digitVal c with
     | some v => if 1 ≤ v then [(v, rest)] else []
     | none => []
   | _ => []) ++
  (match s with
   | c :: rest =>
     match digitVal c with
     | some v => if 1 ≤ v then [(v, rest)] else []
     | none => []
   | _ => []) ++
  (match s with
   | ' ' :: c :: rest =>
     match digitVal c with
     | some v => if 1 ≤ v then [(v, rest)] else []
     | none => []
   | _ => [])

/-- The full `%Y-%m-%d` regex match (whole string, first match in
backtracking order): year, dash, month, dash, day, end of input. -/
def strptimeYMD (s : Str) : Option (Nat × Nat × Nat) :=
  match parseYear4 s with
  | none => none
  | some (y, r1) =>
    match r1 with
    | '-' :: r2 =>
      ((monthCands r2).filterMap (fun mc =>
        match mc.2 with
        | '-' :: r4 =>
          (((dayCands r4).filter (fun dc => dc.2 = [])).head?).map (fun dc => (y, mc.1, dc.1))
        | _ => none)).head?
    | _ => none

/-- Gregorian leap years, as `datetime` validates them. -/
def isLeap (y : Nat) : Bool := (y % 4 = 0 && y % 100 ≠ 0) || y % 400 = 0

/-- Days in a month, as `datetime` validates them. -/
def daysInMonth (y m : Nat) : Nat :=
  if m = 2 then (if isLeap y then 29 else 28)
  else if m = 4 ∨ m = 6 ∨ m = 9 ∨ m = 11 then 30
  else 31

/-- `datetime.strptime(s, "%Y-%m-%d")`: regex match, then `datetime`
construction, which checks `MINYEAR ≤ year` and the day against the
month's length.  The date is encoded as `y*10000 + m*100 + d`, which
orders exactly as `datetime` does. -/
def strptimeDate (s : Str) : Except String Nat :=
  match strptimeYMD s with
  | none => Except.error ("time data does not match format")
  | some (y, m, d) =>
    if 1 ≤ y ∧ d ≤ daysInMonth y m then Except.ok (y * 10000 + m * 100 + d)
    else Except.error ("day is out of range for month")

/-- `extract_date` inside `sort_blobs_by_date`: the file-name component
after the last `/`, with every occurrence of `.jsonl` removed, parsed
as `%Y-%m-%d`. -/
def extract_date (blob : Str) : Except String Nat :=
  strptimeDate (replaceAll (str (".jsonl")) [] ((splitChar '/' blob).getLastD []))

/-- Left-to-right monadic map for `Except`: Python's `sorted` computes
the key of every element and the first raising key aborts the call. -/
def mapExcept (f : α → Except String β) : List α → Except String (List β)
| [] => Except.ok []
| a :: as =>
  match f a with
  | Except.error e => Except.error e
  | Except.ok b =>
    match mapExcept f as with
    | Except.error e => Except.error e
    | Except.ok bs => Except.ok (b :: bs)

/-- Comparison of decorated elements by their date key: the order
`sorted(blobs, key=extract_date)` sorts by. -/
def keyLE (x y : Nat × Str) : Prop := x.1 ≤ y.1

instance : DecidableRel keyLE := fun x y => Nat.decLe x.1 y.1

instance : IsTotal (Nat × Str) keyLE := ⟨fun a b => Nat.le_total a.1 b.1⟩

instance : IsTrans (Nat × Str) keyLE := ⟨fun _ _ _ => Nat.le_trans⟩

/-- `sort_blobs_by_date(blobs)`: decorate each name with its extracted
date (first failure aborts the call), stable-sort ascending by the
date, undecorate. -/
def sort_blobs_by_date (blobs : List Str) : Except String (List Str) :=
  match mapExcept (fun b => (extract_date b).map (fun d => (d, b))) blobs with
  | Except.error e => Except.error e
  | Except.ok keyed => Except.ok ((List.insertionSort keyLE keyed).map (fun p => p.2))

/-- An operation against the remote object store, for stating that a
code path performs no store call. -/
inductive RemoteOp where
| listBlobs (pfx : Str)
| downloadBlob (name : Str)
deriving DecidableEq

/-- The listing path of `list_polygon_asset_files`: the asset's label
with dots replaced by `/`, with a trailing `/` appended when absent
(so that an asset id `SPY` cannot match `SPYD`'s files). -/
def polygon_asset_dir (asset : PolygonDataAsset) : Str :=
  let p := replaceChar '.' '/' asset.label
  if p.getLast? = some '/' then p else p ++ ['/']

/-- `list_polygon_asset_files(asset)`: list the bucket's objects under
the asset's directory path. -/
def list_polygon_asset_files (bucket : GcsBucket) (asset : PolygonDataAsset) : List Str :=
  list_blobs_in_bucket bucket (some (polygon_asset_dir asset)) none

/-- `pd.DataFrame(data)` for a list of dict records: column order is
first appearance of each key, missing keys become NaN, and the index
is the default integer range.  `len` of the result is the number of
records. -/
def mkDataFrame (records : List Row) : Table :=
  let names := records.foldl
    (fun ns r => r.foldl (fun ns2 kv => if ns2.contains kv.1 then ns2 else ns2 ++ [kv.1]) ns) []
  ⟨names,
   (List.range records.length).map (fun i => Value.vint (Int.ofNat i)),
   records.map (fun r => names.map (fun n => (r.lookup n).getD Value.vnan))⟩

/-- The `if blob_limit:` truncation: Python truthiness keeps all blobs
both when the limit is `None` and when it is `0`. -/
def limited_blobs (blob_limit : Option Nat) (sorted_blobs : List Str) : List Str :=
  match blob_limit with
  | some n => if n = 0 then sorted_blobs else sorted_blobs.take n
  | none => sorted_blobs

/-- Download every listed file's records and concatenate them.  The
source downloads in a thread pool and extends in completion order; the
model concatenates in submission order (no claim below depends on
record order). -/
def concat_records (bucket : GcsBucket) (blobs : List Str) : List Row :=
  blobs.foldl (fun acc b => acc ++ load_jsonl_blob bucket b) []

/-- `load_polygon_data_asset_from_gcs(asset, blob_limit, clean)`: list
the asset's files, date-sort them (a malformed date aborts here, before
any download), truncate to `blob_limit` files when that argument is
truthy, download every file's records, concatenate into a frame, and
assert the frame is non-empty (`"No data"`).  The `clean` parameter is
accepted but never read.  Besides the frame the model returns the
store operations the call performed. -/
def load_polygon_data_asset_from_gcs (bucket : GcsBucket) (asset : PolygonDataAsset)
    (blob_limit : Option Nat) (clean : Bool) : Except String Table × List RemoteOp :=
  match sort_blobs_by_date (list_polygon_asset_files bucket asset) with
  | Except.error e => (Except.error e, [RemoteOp.listBlobs (polygon_asset_dir asset)])
  | Except.ok sorted_blobs =>
    ((if 0 < (mkDataFrame (concat_records bucket (limited_blobs blob_limit sorted_blobs))).rows.length
      then Except.ok (mkDataFrame (concat_records bucket (limited_blobs blob_limit sorted_blobs)))
      else Except.error ("No data")),
     RemoteOp.listBlobs (polygon_asset_dir asset)
       :: (limited_blobs blob_limit sorted_blobs).map RemoteOp.downloadBlob)

/-- `get_polygon_asset_local_file_name(asset)`: the label with dots
replaced by `/`, plus the `.joblib` extension. -/
def get_polygon_asset_local_file_name (asset : PolygonDataAsset) : Str :=
  replaceChar '.' '/' asset.label ++ str (".joblib")

/-- The local cache directory: an association list from relative file
paths to the stored tables. -/
abbrev Cache := List (Str × Table)

/-- `LocalDataCache.list_files(prefix)`: every stored relative path
whose string form starts with the given path. -/
def list_files (cache : Cache) (pfx : Str) : List Str :=
  (cache.map (fun e => e.1)).filter (fun f => pfx.isPrefixOf f)

/-- `LocalDataCache.load(file)`: deserialize what is stored at the
path; a literally absent path fails. -/
def cache_load (cache : Cache) (file : Str) : Except String Table :=
  match cache.lookup file with
  | some t => Except.ok t
  | none => Except.error ("FileNotFoundError")

/-- `LocalDataCache.save(obj, file)`: create the parent directories and
serialize to the path, overwriting any file already there.  On the
association list this is map update. -/
def cache_save (cache : Cache) (obj : Table) (file : Str) : Cache :=
  (file, obj) :: cache.filter (fun e => ¬(e.1 = file))

/-- The type of the cleaning transforms (`CleanerFunc`); a transform
can fail, as the library calls it wraps can raise. -/
abbrev CleanerFunc := Table → PolygonDataAsset → Except String Table

/-- `pd.to_datetime(·, format="mixed")` on one cell, modelled for the
date strings this data holds: a `YYYY-MM-DD` string parses to a
datetime, a datetime passes through, anything else is a parse error. -/
def parseDtValue : Value → Except String Value
| Value.vdate d => Except.ok (Value.vdate d)
| Value.vstr s => (strptimeDate s).map (fun d => Value.vdate d)
| _ => Except.error ("unable to parse date")

/-- The sort key `sort_values("dt")` orders rows by, on parsed cells. -/
def dtKey : Value → Nat
| Value.vdate d => d
| _ => 0

/-- Comparison of `(parsed dt, index label, row)` triples by the
parsed date. -/
def rowLE (x y : Value × Value × List Value) : Prop := dtKey x.1 ≤ dtKey y.1

instance : DecidableRel rowLE := fun x y => Nat.decLe (dtKey x.1) (dtKey y.1)

instance : IsTotal (Value × Value × List Value) rowLE :=
  ⟨fun a b => Nat.le_total (dtKey a.1) (dtKey b.1)⟩

instance : IsTrans (Value × Value × List Value) rowLE := ⟨fun _ _ _ => Nat.le_trans⟩

/-- `set_sort_dt_index(df, asset)`: parse the `dt` column as datetimes,
sort the rows ascending by it, and promote `dt` to the row index
(removing it from the columns). -/
def set_sort_dt_index (df : Table) (asset : PolygonDataAsset) : Except String Table :=
  match df.names.findIdx? (fun n => n == str ("dt")) with
  | none => Except.error ("KeyError: dt")
  | some i =>
    match mapExcept
      (fun p => (parseDtValue (p.2.getD i Value.vnan)).map (fun d => (d, p.1, p.2.set i d)))
      (df.index.zip df.rows) with
    | Except.error e => Except.error e
    | Except.ok paired =>
      let sorted_rows := List.insertionSort rowLE paired
      Except.ok ⟨df.names.eraseIdx i,
                 sorted_rows.map (fun q => q.1),
                 sorted_rows.map (fun q => q.2.2.eraseIdx i)⟩

/-- `add_asset_id_prefixes(df, asset)`: rename every column to
`{asset_id}_{column}`. -/
def add_asset_id_prefixes (df : Table) (asset : PolygonDataAsset) : Except String Table :=
  Except.ok ⟨df.names.map (fun col => asset.asset_id ++ ['_'] ++ col), df.index, df.rows⟩

/-- The four columns `ohlc_to_float` casts. -/
def ohlcvCols : List Str := [str ("open"), str ("high"), str ("low"), str ("close")]

/-- `astype(float)` on one cell: ints widen to float, floats and NaN
pass through; the library's string-to-float parsing is not modelled
(no claim depends on it) and is a cast error here, as are datetimes. -/
def toFloatValue : Value → Except String Value
| Value.vint i => Except.ok (Value.vfloat (i : Rat))
| Value.vfloat q => Except.ok (Value.vfloat q)
| Value.vnan => Except.ok Value.vnan
| Value.vstr _ => Except.error ("could not convert string to float")
| Value.vdate _ => Except.error ("cannot cast datetime to float")

/-- Cast the cells of one row whose column name is in `ohlcvCols`,
position by position; cells beyond the named columns are untouched. -/
def castRow : List Str → List Value → Except String (List Value)
| _, [] => Except.ok []
| [], v :: vs =>
  Except.ok (v :: vs)
| n :: ns, v :: vs =>
  match (if ohlcvCols.contains n then toFloatValue v else Except.ok v) with
  | Except.error e => Except.error e
  | Except.ok v2 =>
    match castRow ns vs with
    | Except.error e => Except.error e
    | Except.ok vs2 => Except.ok (v2 :: vs2)

/-- `ohlc_to_float(df, asset)`: `df[cols] = df[cols].astype(float)` for
the four OHLC columns; selecting an absent column raises `KeyError`. -/
def ohlc_to_float (df : Table) (asset : PolygonDataAsset) : Except String Table :=
  if ohlcvCols.all (fun c => df.names.contains c) then
    match mapExcept (castRow df.names) df.rows with
    | Except.error e => Except.error e
    | Except.ok rows2 => Except.ok ⟨df.names, df.index, rows2⟩
  else Except.error ("KeyError")

/-- `log_dataframe_changes(func)`: measure the frame's shape before and
after the wrapped call and log the row/column delta (or "made no
changes"); the wrapped function's value is returned unchanged.  The
model returns the log lines alongside the result; when the wrapped
call raises, nothing is logged. -/
def log_dataframe_changes (fname : String) (f : CleanerFunc) (df : Table)
    (asset : PolygonDataAsset) : Except String Table × List String :=
  let before_shape := (df.rows.length, df.names.length)
  match f df asset with
  | Except.error e => (Except.error e, [])
  | Except.ok result_df =>
    let after_shape := (result_df.rows.length, result_df.names.length)
    let row_change : Int := (after_shape.1 : Int) - (before_shape.1 : Int)
    let col_change : Int := (after_shape.2 : Int) - (before_shape.2 : Int)
    let changes :=
      (if row_change ≠ 0 then
        [(if 0 < row_change then "added " else "removed ") ++ toString row_change.natAbs ++ " rows"]
       else []) ++
      (if col_change ≠ 0 then
        [(if 0 < col_change then "added " else "removed ") ++ toString col_change.natAbs ++ " columns"]
       else [])
    let change_description := if changes = [] then "made no changes" else
      String.intercalate (" and ") changes
    (Except.ok result_df, [fname ++ "() " ++ change_description ++ "."])

/-- `CLEANERS`: the per-asset-type ordered cleaning pipelines, each
entry a function with its `__name__`. -/
def CLEANERS : PolygonAssetType → List (String × CleanerFunc)
| PolygonAssetType.options => [("set_sort_dt_index", set_sort_dt_index)]
| PolygonAssetType.index => []
| PolygonAssetType.equity =>
  [("set_sort_dt_index", set_sort_dt_index), ("ohlc_to_float", ohlc_to_float),
   ("add_asset_id_prefixes", add_asset_id_prefixes)]
| PolygonAssetType.forex => [("set_sort_dt_index", set_sort_dt_index)]

/-- The cleaning loop of `DataManager.load_asset`: each cleaner is
wrapped in `log_dataframe_changes` and applied in order. -/
def apply_cleaners : List (String × CleanerFunc) → PolygonDataAsset → Table → Except String Table
| [], _, df => Except.ok df
| c :: cs, asset, df =>
  match (log_dataframe_changes c.1 c.2 df asset).1 with
  | Except.error e => Except.error e
  | Except.ok df2 => apply_cleaners cs asset df2

/-- The `if clean:` tail of `load_asset`. -/
def clean_df (clean : Bool) (asset : PolygonDataAsset) (df : Table) : Except String Table :=
  if clean then apply_cleaners (CLEANERS asset.asset_type) asset df else Except.ok df

/-- `DataManager.load_asset(asset, force_reload, clean)`: compute the
canonical cache file name; when not forced and a prefix-matching cached
file exists, load the first match from cache; otherwise load from
remote and save the (uncleaned) frame at the canonical name; finally
apply the asset type's cleaning pipeline when `clean`.  The model
returns the result, the cache directory after the call, and the remote
store operations performed. -/
def load_asset (cache : Cache) (bucket : GcsBucket) (asset : PolygonDataAsset)
    (force_reload clean : Bool) : Except String Table × Cache × List RemoteOp :=
  if force_reload = false ∧ list_files cache (get_polygon_asset_local_file_name asset) ≠ [] then
    match cache_load cache
        ((list_files cache (get_polygon_asset_local_file_name asset)).headD []) with
    | Except.error e => (Except.error e, cache, [])
    | Except.ok df => (clean_df clean asset df, cache, [])
  else
    match load_polygon_data_asset_from_gcs bucket asset none true with
    | (Except.error e, ops) => (Except.error e, cache, ops)
    | (Except.ok df, ops) =>
      (clean_df clean asset df, cache_save cache df (get_polygon_asset_local_file_name asset), ops)

/-! ### Helper lemmas -/

/-- A path among the cache's keys has a stored value. -/
theorem lookup_of_mem_keys (cache : Cache) (x : Str)
    (hx : x ∈ cache.map (fun e => e.1)) : ∃ t, cache.lookup x = some t := by
  induction cache with
  | nil => simp at hx
  | cons e es ih =>
    rcases List.mem_cons.1 hx with h | h
    · exact ⟨e.2, by simp [List.lookup, h]⟩
    · rcases ih h with ⟨t, ht⟩
      by_cases hxe : x == e.1
      · exact ⟨e.2, by simp [List.lookup, hxe]⟩
      · exact ⟨t, by simp only [List.lookup, hxe]; exact ht⟩

/-- `mapExcept` succeeds pointwise when every element's image is given. -/
theorem mapExcept_ok_of_forall (f : α → Except String β) (g : α → β) :
    ∀ l : List α, (∀ a ∈ l, f a = Except.ok (g a)) → mapExcept f l = Except.ok (l.map g) := by
  intro l
  induction l with
  | nil => intro _; rfl
  | cons a as ih =>
    intro h
    have ha := h a (List.mem_cons_self a as)
    have has := ih (fun b hb => h b (List.mem_cons_of_mem a hb))
    simp [mapExcept, ha, has]

/-- One failing element makes the whole `mapExcept` fail. -/
theorem mapExcept_error_of_exists (f : α → Except String β) :
    ∀ l : List α, (∃ a ∈ l, (f a).isOk = false) → ∃ e, mapExcept f l = Except.error e := by
  intro l
  induction l with
  | nil => rintro ⟨a, ha, _⟩; simp at ha
  | cons a as ih =>
    rintro ⟨b, hb, hbad⟩
    cases hfa : f a with
    | error e => exact ⟨e, by simp [mapExcept, hfa]⟩
    | ok v =>
      have hbas : b ∈ as := by
        rcases List.mem_cons.1 hb with rfl | h
        · rw [hfa] at hbad; simp [Except.isOk, Except.toBool] at hbad
        · exact h
      rcases ih ⟨b, hbas, hbad⟩ with ⟨e, he⟩
      exact ⟨e, by simp [mapExcept, hfa, he]⟩

/-- `mapExcept` of an idempotent-on-success function is idempotent. -/
theorem mapExcept_idem (f : β → Except String β)
    (hf : ∀ a b, f a = Except.ok b → f b = Except.ok b) :
    ∀ l l' : List β, mapExcept f l = Except.ok l' → mapExcept f l' = Except.ok l' := by
  intro l
  induction l with
  | nil =>
    intro l' h
    simp only [mapExcept] at h
    cases h
    rfl
  | cons a as ih =>
    intro l' h
    simp only [mapExcept] at h
    cases hfa : f a with
    | error e => rw [hfa] at h; cases h
    | ok b =>
      rw [hfa] at h
      cases has : mapExcept f as with
      | error e => rw [has] at h; cases h
      | ok bs =>
        rw [has] at h
        cases h
        simp [mapExcept, hf a b hfa, ih bs has]

/-- The pointwise relation a successful `mapExcept` establishes. -/
theorem mapExcept_forall₂ (f : α → Except String β) (R : α → β → Prop)
    (hR : ∀ a b, f a = Except.ok b → R a b) :
    ∀ l l', mapExcept f l = Except.ok l' → List.Forall₂ R l l' := by
  intro l
  induction l with
  | nil =>
    intro l' h
    simp only [mapExcept] at h
    cases h
    exact List.Forall₂.nil
  | cons a as ih =>
    intro l' h
    simp only [mapExcept] at h
    cases hfa : f a with
    | error e => rw [hfa] at h; cases h
    | ok b =>
      rw [hfa] at h
      cases has : mapExcept f as with
      | error e => rw [has] at h; cases h
      | ok bs =>
        rw [has] at h
        cases h
        exact List.Forall₂.cons (hR a b hfa) (ih bs has)

/-- A successful float cast yields a cell the cast keeps fixed. -/
theorem toFloatValue_idem (v v' : Value) (h : toFloatValue v = Except.ok v') :
    toFloatValue v' = Except.ok v' := by
  cases v <;> simp [toFloatValue] at h <;> subst h <;> rfl

/-- A successfully cast row is kept fixed by a second cast. -/
theorem castRow_idem : ∀ (r : List Value) (ns : List Str) (r' : List Value),
    castRow ns r = Except.ok r' → castRow ns r' = Except.ok r' := by
  intro r
  induction r with
  | nil =>
    intro ns r' h
    cases ns <;> simp only [castRow] at h <;> cases h <;> rfl
  | cons v vs ih =>
    intro ns r' h
    cases ns with
    | nil => simp only [castRow] at h; cases h; rfl
    | cons n ns' =>
      simp only [castRow] at h
      by_cases hc : ohlcvCols.contains n = true
      · rw [if_pos hc] at h
        cases hv : toFloatValue v with
        | error e => rw [hv] at h; cases h
        | ok v2 =>
          rw [hv] at h
          cases hrest : castRow ns' vs with
          | error e => rw [hrest] at h; cases h
          | ok vs2 =>
            rw [hrest] at h
            cases h
            simp only [castRow, if_pos hc, toFloatValue_idem v v2 hv, ih ns' vs2 hrest]
      · rw [if_neg hc] at h
        cases hrest : castRow ns' vs with
        | error e => rw [hrest] at h; cases h
        | ok vs2 =>
          rw [hrest] at h
          cases h
          simp only [castRow, if_neg hc, ih ns' vs2 hrest]

/-- What `castRow` does cell by cell: cells under one of the four OHLC
column names are cast, every other cell is returned unchanged. -/
def OhlcCastSpec (ns : List Str) (r r' : List Value) : Prop :=
  r'.length = r.length ∧ ∀ j, j < r.length →
    if ns.getD j [] ∈ ohlcvCols
    then toFloatValue (r.getD j Value.vnan) = Except.ok (r'.getD j Value.vnan)
    else r'.getD j Value.vnan = r.getD j Value.vnan

/-- A successful `castRow` satisfies `OhlcCastSpec`. -/
theorem castRow_spec : ∀ (r : List Value) (ns : List Str) (r' : List Value),
    castRow ns r = Except.ok r' → OhlcCastSpec ns r r' := by
  intro r
  induction r with
  | nil =>
    intro ns r' h
    cases ns <;> simp only [castRow] at h <;> cases h <;> exact ⟨rfl, by intro j hj; simp at hj⟩
  | cons v vs ih =>
    intro ns r' h
    cases ns with
    | nil =>
      simp only [castRow] at h
      cases h
      refine ⟨rfl, ?_⟩
      intro j hj
      have : (([] : List Str).getD j []) = [] := by simp
      rw [this]
      have hne : ¬(([] : Str) ∈ ohlcvCols) := by decide
      rw [if_neg hne]
    | cons n ns' =>
      simp only [castRow] at h
      by_cases hc : ohlcvCols.contains n = true
      · rw [if_pos hc] at h
        cases hv : toFloatValue v with
        | error e => rw [hv] at h; cases h
        | ok v2 =>
          rw [hv] at h
          cases hrest : castRow ns' vs with
          | error e => rw [hrest] at h; cases h
          | ok vs2 =>
            rw [hrest] at h
            cases h
            rcases ih ns' vs2 hrest with ⟨hlen, hspec⟩
            refine ⟨by simp [hlen], ?_⟩
            intro j hj
            cases j with
            | zero =>
              simp only [List.getD_cons_zero]
              rw [if_pos (by simpa using hc)]
              exact hv
            | succ k =>
              simp only [List.getD_cons_succ]
              exact hspec k (by simpa using hj)
      · rw [if_neg hc] at h
        cases hrest : castRow ns' vs with
        | error e => rw [hrest] at h; cases h
        | ok vs2 =>
          rw [hrest] at h
          cases h
          rcases ih ns' vs2 hrest with ⟨hlen, hspec⟩
          refine ⟨by simp [hlen], ?_⟩
          intro j hj
          cases j with
          | zero =>
            simp only [List.getD_cons_zero]
            rw [if_neg (by simpa using hc)]
            trivial
          | succ k =>
            simp only [List.getD_cons_succ]
            exact hspec k (by simpa using hj)

/-! ### The claims -/

/-- Claim C6: two `PolygonDataAsset` values compare equal exactly when
their labels are equal; equal labels give equal hashes; and both the
equality and the hash are unchanged by any setting of the `traded`
field. -/
theorem asset_identity_eq_hash (a b : PolygonDataAsset) (t1 t2 : Bool) :
    (asset_eq a b = true ↔ a.label = b.label) ∧
    (a.label = b.label → asset_hash a = asset_hash b) ∧
    asset_eq (setTraded a t1) (setTraded b t2) = asset_eq a b ∧
    asset_hash (setTraded a t1) = asset_hash a := by
  refine ⟨?_, ?_, rfl, rfl⟩
  · simp only [asset_eq, beq_iff_eq]
    exact eq_comm
  · intro h
    simp only [asset_hash, h]

/-- Claim C9: the `clean` parameter of
`load_polygon_data_asset_from_gcs` is never read, so the call's result
is independent of it. -/
theorem load_from_gcs_clean_independent (bucket : GcsBucket) (asset : PolygonDataAsset)
    (blob_limit : Option Nat) (c1 c2 : Bool) :
    load_polygon_data_asset_from_gcs bucket asset blob_limit c1 =
      load_polygon_data_asset_from_gcs bucket asset blob_limit c2 := rfl

/-- Claim C10: the logging wrapper is value-transparent: for any
wrapped transform, any frame and any asset, the wrapped call's value is
exactly the transform's value; only the log lines differ. -/
theorem log_dataframe_changes_transparent (fname : String) (f : CleanerFunc)
    (df : Table) (asset : PolygonDataAsset) :
    (log_dataframe_changes fname f df asset).1 = f df asset := by
  unfold log_dataframe_changes
  cases h : f df asset <;> simp

/-- The claim's notion of a well-formed `YYYY-MM-DD` date token,
defined from the spec's words for comparison with the code's parser:
four year digits, dash, two month digits, dash, two day digits,
denoting a valid calendar date. -/
def wellFormedYMD (s : Str) : Bool :=
  match s with
  | [y1, y2, y3, y4, s1, m1, m2, s2, d1, d2] =>
    match digitVal y1, digitVal y2, digitVal y3, digitVal y4,
          digitVal m1, digitVal m2, digitVal d1, digitVal d2 with
    | some a, some b, some c, some d, some e, some f, some g, some h =>
      decide (s1 = '-') && decide (s2 = '-') &&
      decide (1 ≤ a * 1000 + b * 100 + c * 10 + d) &&
      decide (1 ≤ e * 10 + f) && decide (e * 10 + f ≤ 12) &&
      decide (1 ≤ g * 10 + h) &&
      decide (g * 10 + h ≤ daysInMonth (a * 1000 + b * 100 + c * 10 + d) (e * 10 + f))
    | _, _, _, _, _, _, _, _ => false
  | _ => false

/-- Counterexample to claim C7 as stated: the name
`a/2024-01- 5.jsonl` carries the date token `2024-01- 5`, which is not
a well-formed `YYYY-MM-DD` date, yet the call does not raise:
`strptime`'s `%d` also matches a space-padded day, so the sort
returns its result normally. -/
theorem sort_blobs_malformed_fatal_cex :
    wellFormedYMD
        (replaceAll (str (".jsonl")) []
          ((splitChar '/' (str ("a/2024-01- 5.jsonl"))).getLastD [])) = false ∧
    extract_date (str ("a/2024-01- 5.jsonl")) = Except.ok 20240105 ∧
    sort_blobs_by_date [str ("a/2024-01- 5.jsonl"), str ("a/2024-01-01.jsonl")] =
      Except.ok [str ("a/2024-01-01.jsonl"), str ("a/2024-01- 5.jsonl")] :=
  ⟨by decide, rfl, rfl⟩

/-- Claim C7 (amended): a date token rejected by the code's `%Y-%m-%d`
parse — which besides zero-padded dates also accepts one-digit months
and one-digit or space-padded days of valid calendar dates — makes the
whole `sort_blobs_by_date` call fail; no malformed item is
individually skipped and no partial result is returned. -/
theorem sort_blobs_malformed_fatal (blobs : List Str)
    (hbad : ∃ b ∈ blobs, (extract_date b).isOk = false) :
    ∃ e, sort_blobs_by_date blobs = Except.error e := by
  have hmap : ∃ b ∈ blobs,
      ((fun b => (extract_date b).map (fun d => (d, b))) b).isOk = false := by
    rcases hbad with ⟨b, hb, hbb⟩
    refine ⟨b, hb, ?_⟩
    cases h : extract_date b with
    | error e => simp [h, Except.map, Except.isOk, Except.toBool]
    | ok v => rw [h] at hbb; simp [Except.isOk, Except.toBool] at hbb
  rcases mapExcept_error_of_exists _ blobs hmap with ⟨e, he⟩
  exact ⟨e, by simp [sort_blobs_by_date, he]⟩

/-- Witness for C7 at the concrete blob `a/2024-13-05.jsonl`, whose
month token 13 does not parse. -/
theorem sort_blobs_malformed_fatal_witness :
    ∃ e, sort_blobs_by_date [str ("a/2024-13-05.jsonl")] = Except.error e :=
  sort_blobs_malformed_fatal [str ("a/2024-13-05.jsonl")] (by decide)

/-- Claim C4: the remote loader never returns a frame with zero rows —
a zero-row concatenation fails the `No data` assertion — and an empty
file listing in particular ends in that error. -/
theorem load_from_gcs_empty_errors (bucket : GcsBucket) (asset : PolygonDataAsset)
    (blob_limit : Option Nat) (clean : Bool) :
    (∀ df, (load_polygon_data_asset_from_gcs bucket asset blob_limit clean).1 = Except.ok df →
      0 < df.rows.length) ∧
    (list_polygon_asset_files bucket asset = [] →
      (load_polygon_data_asset_from_gcs bucket asset blob_limit clean).1 =
        Except.error ("No data")) := by
  constructor
  · intro df hdf
    unfold load_polygon_data_asset_from_gcs at hdf
    cases hs : sort_blobs_by_date (list_polygon_asset_files bucket asset) with
    | error e => rw [hs] at hdf; cases hdf
    | ok sorted_blobs =>
      rw [hs] at hdf
      dsimp only at hdf
      split at hdf
      · cases hdf
        assumption
      · cases hdf
  · intro hempty
    unfold load_polygon_data_asset_from_gcs
    rw [hempty]
    have hs : sort_blobs_by_date [] = Except.ok [] := rfl
    rw [hs]
    dsimp only
    have hlim : limited_blobs blob_limit [] = [] := by
      unfold limited_blobs
      cases blob_limit with
      | none => rfl
      | some n => by_cases hn : n = 0 <;> simp [hn]
    rw [hlim]
    rfl

/-- Claim C1: with `force_reload = false` and at least one cached file
matching the canonical name's prefix, `load_asset` returns the table
loaded from the first matching cached file (cleaned when `clean`),
leaves the cache unchanged, and performs no remote store operation. -/
theorem load_asset_cache_hit (cache : Cache) (bucket : GcsBucket)
    (asset : PolygonDataAsset) (clean : Bool)
    (hcached : list_files cache (get_polygon_asset_local_file_name asset) ≠ []) :
    ∃ df0,
      cache_load cache
          ((list_files cache (get_polygon_asset_local_file_name asset)).headD []) =
        Except.ok df0 ∧
      load_asset cache bucket asset false clean =
        (clean_df clean asset df0, cache, ([] : List RemoteOp)) := by
  have hmem : (list_files cache (get_polygon_asset_local_file_name asset)).headD []
      ∈ list_files cache (get_polygon_asset_local_file_name asset) := by
    cases hfs : list_files cache (get_polygon_asset_local_file_name asset) with
    | nil => exact absurd hfs hcached
    | cons a as => simp
  have hkey : (list_files cache (get_polygon_asset_local_file_name asset)).headD []
      ∈ cache.map (fun e => e.1) := (List.mem_filter.1 hmem).1
  rcases lookup_of_mem_keys cache _ hkey with ⟨t, ht⟩
  have hload : cache_load cache
      ((list_files cache (get_polygon_asset_local_file_name asset)).headD []) =
      Except.ok t := by
    unfold cache_load
    rw [ht]
  refine ⟨t, hload, ?_⟩
  unfold load_asset
  rw [if_pos ⟨rfl, hcached⟩, hload]

/-- Witness asset for the cache claims: an index asset `SPY` (its
cleaning pipeline is empty, so the cleaned result is concrete). -/
def wAsset : PolygonDataAsset :=
  mkPolygonDataAsset PolygonAssetType.index (str ("SPY")) (str ("polygon")) (str ("1d")) false

/-- Witness blob name for the cache claims. -/
def wBlob : Str := str ("polygon/index/ohlc/1d/SPY/2024-01-01.jsonl")

/-- Witness record for the cache claims. -/
def wRow : Row := [(str ("dt"), Value.vstr (str ("2024-01-01"))), (str ("open"), Value.vint 1)]

/-- Witness bucket: one object under the witness asset's directory. -/
def wBucket : GcsBucket :=
  ⟨[wBlob], fun b => if b = wBlob then [wRow] else []⟩

/-- The frame the witness bucket's single record loads to. -/
def wTable : Table :=
  ⟨[str ("dt"), str ("open")], [Value.vint 0],
   [[Value.vstr (str ("2024-01-01")), Value.vint 1]]⟩

/-- The witness asset's canonical cache file name. -/
def wFile : Str := get_polygon_asset_local_file_name wAsset

/-- Witness for C1: a cache holding the canonical file for the witness
asset is hit without any store operation. -/
theorem load_asset_cache_hit_witness :
    (list_files [(wFile, wTable)] (get_polygon_asset_local_file_name wAsset) ≠ []) ∧
    (∃ df0,
      cache_load [(wFile, wTable)]
          ((list_files [(wFile, wTable)] (get_polygon_asset_local_file_name wAsset)).headD []) =
        Except.ok df0 ∧
      load_asset [(wFile, wTable)] wBucket wAsset false true =
        (clean_df true wAsset df0, [(wFile, wTable)], ([] : List RemoteOp))) :=
  ⟨by decide, load_asset_cache_hit [(wFile, wTable)] wBucket wAsset true (by decide)⟩

/-- Claim C2: whenever `load_asset` takes the remote path (forced, or
no cached file matches the canonical prefix) and the remote load
succeeds, the loaded frame is saved to the cache at the canonical name
— unconditionally, before any cleaning, overwriting what was there —
and the cleaned frame is returned. -/
theorem load_asset_cache_miss_saves (cache : Cache) (bucket : GcsBucket)
    (asset : PolygonDataAsset) (force_reload clean : Bool) (dfr : Table)
    (hmiss : force_reload = true ∨
      list_files cache (get_polygon_asset_local_file_name asset) = [])
    (hok : (load_polygon_data_asset_from_gcs bucket asset none true).1 = Except.ok dfr) :
    load_asset cache bucket asset force_reload clean =
      (clean_df clean asset dfr,
       cache_save cache dfr (get_polygon_asset_local_file_name asset),
       (load_polygon_data_asset_from_gcs bucket asset none true).2) ∧
    (cache_save cache dfr (get_polygon_asset_local_file_name asset)).lookup
        (get_polygon_asset_local_file_name asset) = some dfr := by
  have hnot : ¬(force_reload = false ∧
      list_files cache (get_polygon_asset_local_file_name asset) ≠ []) := by
    rcases hmiss with h | h
    · rintro ⟨h1, _⟩
      rw [h] at h1
      cases h1
    · rintro ⟨_, h2⟩
      exact h2 h
  constructor
  · unfold load_asset
    rw [if_neg hnot]
    rcases hpair : load_polygon_data_asset_from_gcs bucket asset none true with ⟨res, ops⟩
    rw [hpair] at hok
    dsimp only at hok ⊢
    rw [hok]
  · simp [cache_save, List.lookup]

/-- Witness for C2: a cold cache forces the remote path; the loaded
frame is written at the canonical name and returned. -/
theorem load_asset_cache_miss_saves_witness :
    load_asset [] wBucket wAsset false true =
      (clean_df true wAsset wTable,
       cache_save [] wTable (get_polygon_asset_local_file_name wAsset),
       (load_polygon_data_asset_from_gcs wBucket wAsset none true).2) ∧
    (cache_save [] wTable (get_polygon_asset_local_file_name wAsset)).lookup
        (get_polygon_asset_local_file_name wAsset) = some wTable :=
  load_asset_cache_miss_saves [] wBucket wAsset false true wTable (Or.inr rfl) rfl

/-- The concrete asset id `SPY` of the prefix-collision claim. -/
def spy_asset : PolygonDataAsset :=
  mkPolygonDataAsset PolygonAssetType.equity (str ("SPY")) (str ("polygon")) (str ("1d")) false

/-- The sibling directory an id `SPY` must never match. -/
def spyd_dir : Str := str ("polygon/equity/ohlcv/1d/SPYD/")

/-- Claim C5: `list_polygon_asset_files` lists exactly the objects under
the asset's label-as-path with a trailing separator (appended when
absent), so the listing for id `SPY` holds nothing under the sibling
`SPYD/` directory: filtering those out changes nothing. -/
theorem list_asset_files_no_sibling_collision (bucket : GcsBucket)
    (asset : PolygonDataAsset) :
    (polygon_asset_dir asset).getLast? = some '/' ∧
    list_polygon_asset_files bucket asset =
      bucket.blob_names.filter (fun b => (polygon_asset_dir asset).isPrefixOf b) ∧
    (list_polygon_asset_files bucket spy_asset).filter
        (fun b => !(spyd_dir.isPrefixOf b)) =
      list_polygon_asset_files bucket spy_asset := by
  refine ⟨?_, rfl, ?_⟩
  · unfold polygon_asset_dir
    dsimp only
    split
    · assumption
    · exact List.getLast?_concat _
  · rw [List.filter_eq_self]
    intro b hb
    have hchar : list_polygon_asset_files bucket spy_asset =
        bucket.blob_names.filter (fun x => (polygon_asset_dir spy_asset).isPrefixOf x) := rfl
    rw [hchar] at hb
    have hpre : (polygon_asset_dir spy_asset).isPrefixOf b = true := (List.mem_filter.1 hb).2
    have hdir : polygon_asset_dir spy_asset = str ("polygon/equity/ohlcv/1d/SPY/") := rfl
    rw [hdir] at hpre
    rcases List.isPrefixOf_iff_prefix.1 hpre with ⟨t, ht⟩
    rw [← ht]
    rfl

/-- The C3 example input. -/
def wBlobsEx : List Str := [str ("a/2024-01-05.jsonl"), str ("a/2024-01-01.jsonl")]

/-- The dates embedded in the C3 example input. -/
def wKeyOf (b : Str) : Nat := if b = str ("a/2024-01-05.jsonl") then 20240105 else 20240101

/-- Claim C3: when every blob's embedded date parses,
`sort_blobs_by_date` returns a permutation of its input that is sorted
ascending by the date key and stable (any pair in key order keeps its
relative order); on the two-element example the earlier date comes
first. -/
theorem sort_blobs_by_date_stable_ascending (blobs : List Str) (keyOf : Str → Nat)
    (hkeys : ∀ b ∈ blobs, extract_date b = Except.ok (keyOf b)) :
    ∃ out, sort_blobs_by_date blobs = Except.ok out ∧
      out.Perm blobs ∧
      List.Pairwise (fun a b => keyOf a ≤ keyOf b) out ∧
      (∀ a b, List.Sublist [a, b] blobs → keyOf a ≤ keyOf b → List.Sublist [a, b] out) ∧
      sort_blobs_by_date wBlobsEx =
        Except.ok [str ("a/2024-01-01.jsonl"), str ("a/2024-01-05.jsonl")] := by
  have hmap : mapExcept (fun b => (extract_date b).map (fun d => (d, b))) blobs =
      Except.ok (blobs.map (fun b => (keyOf b, b))) := by
    apply mapExcept_ok_of_forall
    intro a ha
    rw [hkeys a ha]
    rfl
  refine ⟨(List.insertionSort keyLE (blobs.map (fun b => (keyOf b, b)))).map (fun p => p.2),
    ?_, ?_, ?_, ?_, rfl⟩
  · unfold sort_blobs_by_date
    rw [hmap]
  · have hp := (List.perm_insertionSort keyLE (blobs.map (fun b => (keyOf b, b)))).map
      (fun p : Nat × Str => p.2)
    rw [List.map_map] at hp
    have hcomp : ((fun p : Nat × Str => p.2) ∘ fun b => (keyOf b, b)) = fun b => b := by
      funext x
      rfl
    rw [hcomp] at hp
    simpa using hp
  · rw [List.pairwise_map]
    have hs := List.sorted_insertionSort keyLE (blobs.map (fun b => (keyOf b, b)))
    refine hs.imp_of_mem ?_
    intro x y hx hy hxy
    rcases List.mem_map.1 ((List.mem_insertionSort keyLE).1 hx) with ⟨bx, _, rfl⟩
    rcases List.mem_map.1 ((List.mem_insertionSort keyLE).1 hy) with ⟨by2, _, rfl⟩
    exact hxy
  · intro a b hsub hle
    have h1 : List.Sublist [(keyOf a, a), (keyOf b, b)] (blobs.map (fun x => (keyOf x, x))) := by
      simpa using hsub.map (fun x => (keyOf x, x))
    have hle2 : keyLE (keyOf a, a) (keyOf b, b) := hle
    have h2 := List.pair_sublist_insertionSort hle2 h1
    simpa using h2.map (fun p : Nat × Str => p.2)

/-- Witness for C3 at the example input, with its concrete date keys. -/
theorem sort_blobs_by_date_stable_ascending_witness :
    ∃ out, sort_blobs_by_date wBlobsEx = Except.ok out ∧
      out.Perm wBlobsEx ∧
      List.Pairwise (fun a b => wKeyOf a ≤ wKeyOf b) out ∧
      (∀ a b, List.Sublist [a, b] wBlobsEx → wKeyOf a ≤ wKeyOf b → List.Sublist [a, b] out) ∧
      sort_blobs_by_date wBlobsEx =
        Except.ok [str ("a/2024-01-01.jsonl"), str ("a/2024-01-05.jsonl")] :=
  sort_blobs_by_date_stable_ascending wBlobsEx wKeyOf (by
    intro b hb
    have hb2 : b ∈ [str ("a/2024-01-05.jsonl"), str ("a/2024-01-01.jsonl")] := hb
    rcases List.mem_cons.1 hb2 with rfl | hb3
    · rfl
    · rcases List.mem_cons.1 hb3 with rfl | hb4
      · rfl
      · cases hb4)

/-- Claim C8: on a frame holding the four OHLC columns, applying
`ohlc_to_float` twice equals applying it once, and a successful
application keeps the column names, the index and every non-OHLC cell
unchanged while casting exactly the OHLC cells to float. -/
theorem ohlc_to_float_idempotent (df : Table) (a1 a2 : PolygonDataAsset)
    (hcols : ohlcvCols.all (fun c => df.names.contains c) = true) :
    ((ohlc_to_float df a1).bind (fun d => ohlc_to_float d a2) = ohlc_to_float df a1) ∧
    ∀ df2, ohlc_to_float df a1 = Except.ok df2 →
      df2.names = df.names ∧ df2.index = df.index ∧
      List.Forall₂ (OhlcCastSpec df.names) df.rows df2.rows := by
  have hmain : ∀ df2, ohlc_to_float df a1 = Except.ok df2 →
      ohlc_to_float df2 a2 = Except.ok df2 ∧ df2.names = df.names ∧ df2.index = df.index ∧
      List.Forall₂ (OhlcCastSpec df.names) df.rows df2.rows := by
    intro df2 h
    unfold ohlc_to_float at h
    rw [if_pos hcols] at h
    cases hm : mapExcept (castRow df.names) df.rows with
    | error e => rw [hm] at h; cases h
    | ok rows2 =>
      rw [hm] at h
      cases h
      have h2 := mapExcept_idem (castRow df.names)
        (fun a b hab => castRow_idem a df.names b hab) df.rows rows2 hm
      refine ⟨?_, rfl, rfl,
        mapExcept_forall₂ _ _ (fun r r' hr => castRow_spec r df.names r' hr) _ _ hm⟩
      unfold ohlc_to_float
      rw [if_pos hcols, h2]
  constructor
  · cases hr : ohlc_to_float df a1 with
    | error e => rfl
    | ok df2 =>
      show ohlc_to_float df2 a2 = Except.ok df2
      exact (hmain df2 hr).1
  · intro df2 h
    exact (hmain df2 h).2

/-- Witness frame for C8: OHLC integer cells and one string column. -/
def wOhlcT : Table :=
  ⟨[str ("open"), str ("x"), str ("high"), str ("low"), str ("close")],
   [Value.vint 0],
   [[Value.vint 1, Value.vstr (str ("k")), Value.vint 2, Value.vint 1, Value.vint 2]]⟩

/-- Witness for C8 at a concrete frame holding the four columns. -/
theorem ohlc_to_float_idempotent_witness :
    (ohlcvCols.all (fun c => wOhlcT.names.contains c) = true) ∧
    (((ohlc_to_float wOhlcT wAsset).bind (fun d => ohlc_to_float d wAsset) =
        ohlc_to_float wOhlcT wAsset) ∧
     ∀ df2, ohlc_to_float wOhlcT wAsset = Except.ok df2 →
       df2.names = wOhlcT.names ∧ df2.index = wOhlcT.index ∧
       List.Forall₂ (OhlcCastSpec wOhlcT.names) wOhlcT.rows df2.rows) :=
  ⟨by decide, ohlc_to_float_idempotent wOhlcT wAsset wAsset (by decide)⟩

end PythonTemplate
